import Mathlib

/-!
Verification development for the wedding-invite-generator single-page tool
(`src/App.vue`).  The script part of that component is shallowly embedded
below: browser numbers are modelled as exact rationals, the page address's
query string as a map from keys to optional string values, and the pieces of
global state touched by each handler as explicit state records.  Fallible
operations (`JSON.parse`) return `Except`.
-/

namespace WeddingInvite

/-! ## Decimal digits

Helper machinery for rendering and reading base-10 numerals, used by the
models of `JSON.stringify` / `JSON.parse` and of `parseFloat`. -/

/-- Little-endian base-10 digits of `n`, with explicit fuel so that the
definition is structural (and hence kernel-reducible). -/
def natDigitsAux : ℕ → ℕ → List ℕ
  | 0, _ => []
  | _ + 1, 0 => []
  | fuel + 1, n => n % 10 :: natDigitsAux fuel (n / 10)

/-- Little-endian base-10 digits of `n` (empty for `0`). -/
def natDigits (n : ℕ) : List ℕ :=
  natDigitsAux n n

/-- Decimal rendering of a natural number, most significant digit first. -/
def printNat (n : ℕ) : List Char :=
  if n = 0 then [Char.ofNat 48] else (natDigits n).reverse.map Nat.digitChar

/-- Numeric value of a string of decimal digit characters, accumulated
left to right exactly the way a hand-rolled scanner would. -/
def digitsToNat (l : List Char) : ℕ :=
  l.foldl (fun acc c => 10 * acc + (c.toNat - 48)) 0

/-- How many times `p` divides `n` (0 for `p ≤ 1` or `n = 0`), with fuel so
that the definition is structural. -/
def maxPowAux (p : ℕ) : ℕ → ℕ → ℕ
  | 0, _ => 0
  | fuel + 1, n => if 1 < p ∧ 0 < n ∧ p ∣ n then maxPowAux p fuel (n / p) + 1 else 0

/-- How many times `p` divides `n`. -/
def maxPow (p n : ℕ) : ℕ :=
  maxPowAux p n n

/-! ## A JSON fragment

The component persists only flat data: every `JSON.stringify` call in the
source receives a two-element number array, and `JSON.parse` is applied to
whatever the `coordinates` query parameter holds.  The model covers the JSON
values needed for that interface: null, booleans, numbers (exact rationals;
the exotic non-finite literals of JavaScript are outside the model), strings
without escape sequences, and arrays.  Objects and escapes are outside the
fragment; the parser rejects them, the printer never has to produce them. -/

inductive Json where
  | null : Json
  | bool (b : Bool) : Json
  | num (q : ℚ) : Json
  | str (s : String) : Json
  | arr (xs : List Json) : Json

/-- JavaScript truthiness of a JSON value (`null`, `false`, `0` and the
empty string are falsy; every array is truthy). -/
def jsonTruthy : Json → Bool
  | .null => false
  | .bool b => b
  | .num q => decide (q ≠ 0)
  | .str s => decide (s ≠ "")
  | .arr _ => true

/-- JSON whitespace characters. -/
def jsonWs (c : Char) : Bool :=
  c = Char.ofNat 32 || c = Char.ofNat 9 || c = Char.ofNat 10 || c = Char.ofNat 13

/-- Skip leading JSON whitespace. -/
def skipWs (l : List Char) : List Char :=
  l.dropWhile jsonWs

/-- Scan a nonempty run of decimal digits: value, digit count, and rest. -/
def parseDigits (l : List Char) : Option (ℕ × ℕ × List Char) :=
  let ds := l.takeWhile Char.isDigit
  if ds.isEmpty then none
  else some (digitsToNat ds, ds.length, l.dropWhile Char.isDigit)

/-- Optional fraction part `.digits` of a JSON number: value and digit count
(0 and 0 when absent; a bare dot with no digits is a syntax error). -/
def parseFracPart : List Char → Option (ℕ × ℕ × List Char)
  | [] => some (0, 0, [])
  | c :: t => if c = Char.ofNat 46 then parseDigits t else some (0, 0, c :: t)

/-- Optional exponent part `e[+-]digits` of a JSON number (0 when absent). -/
def parseExpDigits : List Char → Option (ℤ × List Char)
  | [] => none
  | c2 :: t2 =>
    if c2 = Char.ofNat 45 then
      (parseDigits t2).map (fun x => (-(x.1 : ℤ), x.2.2))
    else if c2 = Char.ofNat 43 then
      (parseDigits t2).map (fun x => ((x.1 : ℤ), x.2.2))
    else
      (parseDigits (c2 :: t2)).map (fun x => ((x.1 : ℤ), x.2.2))

/-- Optional exponent part continued: the whole part (0 when absent). -/
def parseExpPart : List Char → Option (ℤ × List Char)
  | [] => some (0, [])
  | c :: t =>
    if c = Char.ofNat 101 ∨ c = Char.ofNat 69 then parseExpDigits t
    else some (0, c :: t)

/-- Magnitude of a JSON number: integer digits, optional fraction, optional
exponent. -/
def parseNumMag (l : List Char) : Option (ℚ × List Char) :=
  (parseDigits l).bind fun ipr =>
    (parseFracPart ipr.2.2).bind fun fpr =>
      (parseExpPart fpr.2.2).map fun epr =>
        (((ipr.1 : ℚ) + (fpr.1 : ℚ) / 10 ^ fpr.2.1) * (10 : ℚ) ^ epr.1, epr.2)

/-- A JSON number, with optional leading minus sign. -/
def parseNumber : List Char → Option (ℚ × List Char)
  | [] => none
  | c :: t =>
    if c = Char.ofNat 45 then (parseNumMag t).map (fun pr => (-pr.1, pr.2))
    else parseNumMag (c :: t)

/-- A JSON string body (escape sequences are outside the fragment). -/
def parseStrBody (l : List Char) : Option (Json × List Char) :=
  let content := l.takeWhile (fun c => c ≠ Char.ofNat 34 && c ≠ Char.ofNat 92)
  match l.dropWhile (fun c => c ≠ Char.ofNat 34 && c ≠ Char.ofNat 92) with
  | [] => none
  | c :: r => if c = Char.ofNat 34 then some (.str (String.mk content), r) else none

/-- The continuation after one array item: a comma continues the run, a
closing bracket ends it. -/
def parseItemsTail (recur : List Char → Option (List Json × List Char)) (j : Json) :
    List Char → Option (List Json × List Char)
  | [] => none
  | c :: r2 =>
    if c = Char.ofNat 44 then (recur (skipWs r2)).map (fun pr => (j :: pr.1, pr.2))
    else if c = Char.ofNat 93 then some ([j], r2)
    else none

/-- Parse a comma-separated run of array items with the supplied element
parser, up to and including the closing bracket. -/
def parseItemsWith (pv : List Char → Option (Json × List Char)) :
    ℕ → List Char → Option (List Json × List Char)
  | 0, _ => none
  | fuel + 1, l =>
    (pv l).bind fun jr => parseItemsTail (parseItemsWith pv fuel) jr.1 (skipWs jr.2)

/-- The continuation after an opening bracket: either an immediately
closing bracket (empty array) or a run of items. -/
def parseArrTail (arrP : List Char → Option (List Json × List Char)) :
    List Char → Option (Json × List Char)
  | [] => none
  | c2 :: t2 =>
    if c2 = Char.ofNat 93 then some (.arr [], t2)
    else (arrP (c2 :: t2)).map (fun pr => (.arr pr.1, pr.2))

/-- One JSON value, already stripped of leading whitespace, with the array
item parser supplied by the caller. -/
def parseValHead (arrP : List Char → Option (List Json × List Char)) :
    List Char → Option (Json × List Char)
  | [] => none
  | c :: t =>
    if c = Char.ofNat 110 then
      if t.take 3 = [Char.ofNat 117, Char.ofNat 108, Char.ofNat 108] then
        some (.null, t.drop 3)
      else none
    else if c = Char.ofNat 116 then
      if t.take 3 = [Char.ofNat 114, Char.ofNat 117, Char.ofNat 101] then
        some (.bool true, t.drop 3)
      else none
    else if c = Char.ofNat 102 then
      if t.take 4 = [Char.ofNat 97, Char.ofNat 108, Char.ofNat 115, Char.ofNat 101] then
        some (.bool false, t.drop 4)
      else none
    else if c = Char.ofNat 34 then parseStrBody t
    else if c = Char.ofNat 91 then parseArrTail arrP (skipWs t)
    else if c = Char.ofNat 45 ∨ c.isDigit then
      (parseNumber (c :: t)).map (fun pr => (.num pr.1, pr.2))
    else none

/-- Parse one JSON value.  Fuel bounds the nesting depth; `jsonParse` passes
more fuel than any input could need. -/
def parseVal : ℕ → List Char → Option (Json × List Char)
  | 0, _ => none
  | fuel + 1, l => parseValHead (parseItemsWith (parseVal fuel) fuel) (skipWs l)

/-- Turn the outcome of the top-level value parse into `JSON.parse`'s
result: anything but a full parse (modulo trailing whitespace) throws. -/
def finishParse : Option (Json × List Char) → Except String Json
  | some (j, r) =>
    if skipWs r = [] then .ok j else .error "SyntaxError: Unexpected token"
  | none => .error "SyntaxError: Unexpected token"

/-- Model of `JSON.parse`: parse one value and require only whitespace after
it; anything else throws a `SyntaxError`, modelled as `Except.error`. -/
def jsonParse (s : String) : Except String Json :=
  finishParse (parseVal (s.length + 1) s.data)

/-- Smallest power of ten that clears the denominator of `q`, provided the
denominator factors as `2 ^ a * 5 ^ b` (which is exactly when `q` has a
finite decimal expansion; every JavaScript float does). -/
def decExp (q : ℚ) : ℕ :=
  max (maxPow 2 q.den) (maxPow 5 q.den)

/-- The scaled integer behind the decimal rendering of `q`: the numerator
of `q` once the denominator has been cleared into `10 ^ decExp q`. -/
def printM (q : ℚ) : ℤ :=
  q.num * (10 : ℤ) ^ decExp q / (q.den : ℤ)

/-- The digits of the decimal rendering of `q`, without the sign: either a
plain integer, or integer part, point, and exactly `decExp q` fraction
digits (zero-padded on the left). -/
def printNumCore (q : ℚ) : List Char :=
  if decExp q = 0 then printNat (printM q).natAbs
  else
    printNat ((printM q).natAbs / 10 ^ decExp q) ++ Char.ofNat 46 ::
      (List.replicate
          (decExp q - (printNat ((printM q).natAbs % 10 ^ decExp q)).length)
          (Char.ofNat 48) ++
        printNat ((printM q).natAbs % 10 ^ decExp q))

/-- Canonical decimal rendering of a rational with finite decimal expansion,
matching how JavaScript prints such numbers (no exponent notation; the
source never persists numbers in the exponent-notation magnitude range). -/
def printNum (q : ℚ) : List Char :=
  if q < 0 then Char.ofNat 45 :: printNumCore q else printNumCore q

/-- Join rendered items with commas. -/
def joinComma : List (List Char) → List Char
  | [] => []
  | [x] => x
  | x :: xs => x ++ Char.ofNat 44 :: joinComma xs

/-- One step of `JSON.stringify`; fuel bounds the nesting depth. -/
def stringifyV : ℕ → Json → List Char
  | 0, _ => []
  | fuel + 1, j =>
    match j with
    | .null => [Char.ofNat 110, Char.ofNat 117, Char.ofNat 108, Char.ofNat 108]
    | .bool true => [Char.ofNat 116, Char.ofNat 114, Char.ofNat 117, Char.ofNat 101]
    | .bool false =>
      [Char.ofNat 102, Char.ofNat 97, Char.ofNat 108, Char.ofNat 115, Char.ofNat 101]
    | .num q => printNum q
    | .str s => Char.ofNat 34 :: (s.data ++ [Char.ofNat 34])
    | .arr xs => Char.ofNat 91 :: (joinComma (xs.map (stringifyV fuel)) ++ [Char.ofNat 93])

/-- Model of `JSON.stringify` on the fragment (values nested deeper than the
fuel bound cannot arise from this component's two-level data). -/
def jsonStringify (j : Json) : String :=
  String.mk (stringifyV 100 j)

/-! ## The page address and the Settings store

`URLSearchParams` percent-encoding round-trips every string, so the query
string is modelled directly as a finite map from keys to optional decoded
values.  `searchParams.set` is a pointwise update, `searchParams.get` is
application (JavaScript's `null` for a missing key becomes `none`). -/

/-- The query-parameter map of a page address. -/
def Params : Type := String → Option String

/-- `url.searchParams.set key v`. -/
def setParam (p : Params) (key v : String) : Params :=
  fun k => if k = key then some v else p k

/-- A page address with no query parameters. -/
def emptyParams : Params := fun _ => none

/-- `loadStringParam` (App.vue lines 11-20): read a query parameter, mapping
a missing or empty value (both falsy) to `null`; the `typeof` test in the
source can never fail, so the value is otherwise returned unchanged. -/
def loadStringParam (p : Params) (key : String) : Option String :=
  (p key).bind fun v => if v = "" then none else some v

/-- The body of `loadObjectParam` applied to the raw parameter value. -/
def loadObjectParamVal : Option String → Except String (Option Json)
  | none => .ok none
  | some v => if v = "" then .ok none else (jsonParse v).map some

/-- `loadObjectParam` (App.vue lines 21-28): read a query parameter; a
missing or empty value yields `null`, anything else goes through
`JSON.parse`, whose exception propagates (there is no handler). -/
def loadObjectParam (p : Params) (key : String) : Except String (Option Json) :=
  loadObjectParamVal (p key)

/-- The Settings store: the reactive refs seeded at startup
(App.vue lines 30-37).  `isItalic`/`isBold` are the source's string-encoded
flags.  `coordinates` is declared `[number, number]` in the source but is at
runtime whatever JSON value the query parameter decoded to, so it is
modelled as `Json`. -/
structure Settings where
  name : String
  fontLoadingCode : String
  fontFamily : String
  isItalic : String
  isBold : String
  fontColor : String
  fontSize : String
  coordinates : Json

/-- The default for `coordinates`: the literal `[0.5, 0.5]`. -/
def defaultCoords : Json :=
  Json.arr [Json.num (1 / 2), Json.num (1 / 2)]

/-- The `|| [0.5, 0.5]` fallback on the decoded coordinates value. -/
def coordsOrDefault : Option Json → Json
  | some j => if jsonTruthy j then j else defaultCoords
  | none => defaultCoords

/-- The Settings record built from the string parameters and the decoded
coordinates value. -/
def buildSettings (p : Params) (co : Option Json) : Settings :=
  { name := (loadStringParam p "name").getD "Tan Ah Kow"
    fontLoadingCode := (loadStringParam p "fontLoadingCode").getD ""
    fontFamily := (loadStringParam p "fontFamily").getD "sans-serif"
    isItalic := (loadStringParam p "isItalic").getD ""
    isBold := (loadStringParam p "isBold").getD ""
    fontColor := (loadStringParam p "fontColor").getD "#000000"
    fontSize := (loadStringParam p "fontSize").getD "14"
    coordinates := coordsOrDefault co }

/-- Startup parameter loading (App.vue lines 30-37): each string field is
`loadStringParam(...) || default`, and `coordinates` is
`loadObjectParam(...) || [0.5, 0.5]`.  Only the `JSON.parse` inside
`loadObjectParam` can throw, which aborts the whole load. -/
def loadSettings (p : Params) : Except String Settings :=
  (loadObjectParam p "coordinates").map (buildSettings p)

/-- `saveSettings` (App.vue lines 107-129): write every settings field into
the current address's query parameters, strings verbatim and the
coordinates value through `JSON.stringify`, in the object-literal insertion
order. -/
def saveSettings (s : Settings) (p : Params) : Params :=
  setParam
    (setParam
      (setParam
        (setParam
          (setParam
            (setParam
              (setParam (setParam p "fontFamily" s.fontFamily) "isBold" s.isBold)
              "isItalic" s.isItalic)
            "fontLoadingCode" s.fontLoadingCode)
          "fontSize" s.fontSize)
        "fontColor" s.fontColor)
      "name" s.name)
    "coordinates" (jsonStringify s.coordinates)

/-! ## The card renderer arithmetic -/

/-- JavaScript whitespace accepted before a `parseFloat` literal. -/
def jsWs (c : Char) : Bool :=
  c = Char.ofNat 32 || c = Char.ofNat 9 || c = Char.ofNat 10 || c = Char.ofNat 13 ||
    c = Char.ofNat 11 || c = Char.ofNat 12

/-- Model of `parseFloat`: skip whitespace, then read the longest prefix
that is a signed decimal literal (`digits`, `digits.digits`, `.digits`,
optional exponent with digits); `none` models `NaN` when no prefix parses.
The non-finite literal `Infinity` is outside the model. -/
def parseFloatModel (s : String) : Option ℚ :=
  let l := s.data.dropWhile jsWs
  let negAndRest : Bool × List Char :=
    match l with
    | [] => (false, [])
    | c :: t =>
      if c = Char.ofNat 45 then (true, t)
      else if c = Char.ofNat 43 then (false, t) else (false, c :: t)
  let l1 := negAndRest.2
  let ds := l1.takeWhile Char.isDigit
  let l2 := l1.dropWhile Char.isDigit
  let fracAndRest : List Char × List Char :=
    match l2 with
    | [] => ([], [])
    | c :: t =>
      if c = Char.ofNat 46 then (t.takeWhile Char.isDigit, t.dropWhile Char.isDigit)
      else ([], c :: t)
  let fds := fracAndRest.1
  let l3 := fracAndRest.2
  if ds.isEmpty && fds.isEmpty then none
  else
    let mant : ℚ := (digitsToNat ds : ℚ) + (digitsToNat fds : ℚ) / 10 ^ fds.length
    let ex : ℤ :=
      match l3 with
      | [] => 0
      | c :: t =>
        if c = Char.ofNat 101 ∨ c = Char.ofNat 69 then
          match t with
          | [] => 0
          | c2 :: t2 =>
            if c2 = Char.ofNat 45 then
              if (t2.takeWhile Char.isDigit).isEmpty then 0
              else -(digitsToNat (t2.takeWhile Char.isDigit) : ℤ)
            else if c2 = Char.ofNat 43 then
              if (t2.takeWhile Char.isDigit).isEmpty then 0
              else (digitsToNat (t2.takeWhile Char.isDigit) : ℤ)
            else
              if ((c2 :: t2).takeWhile Char.isDigit).isEmpty then 0
              else (digitsToNat ((c2 :: t2).takeWhile Char.isDigit) : ℤ)
        else 0
    some ((if negAndRest.1 then -mant else mant) * (10 : ℚ) ^ ex)

/-- The absolute text anchor (App.vue lines 92-93):
`lx = width * coordinates[0]`, `ly = height * coordinates[1]`. -/
def textAnchor (w h fx fy : ℚ) : ℚ × ℚ :=
  (w * fx, h * fy)

/-- The `parseFloat(fontSize.value) || 14` fallback: JavaScript `||` falls
back on every falsy number, i.e. both on `NaN` (unparsable input, `none`
here) and on `0`. -/
def sizeOrDefault : Option ℚ → ℚ
  | some v => if v = 0 then 14 else v
  | none => 14

/-- The effective font size (App.vue line 95):
`(parseFloat(fontSize.value) || 14) / 600 * imageSize.value.height`. -/
def effectiveSize (fontSize : String) (h : ℚ) : ℚ :=
  sizeOrDefault (parseFloatModel fontSize) / 600 * h

/-- `handleUpdatePosition` (App.vue lines 188-192): the clicked point as a
fraction of the displayed image's client box. -/
def handleUpdatePosition (offsetX offsetY clientWidth clientHeight : ℚ) : ℚ × ℚ :=
  (offsetX / clientWidth, offsetY / clientHeight)

/-! ## Font loading: the stylesheet-URL pattern and the handler state -/

/-- Line-terminator characters, which `.` in a JavaScript regular
expression does not match. -/
def isLineTerm (c : Char) : Bool :=
  c = Char.ofNat 10 || c = Char.ofNat 13 || c.val = 0x2028 || c.val = 0x2029

/-- The greedy tail of the pattern `(.*)"`: the longest prefix of `l` that
stays on one line and is followed immediately by a double quote. -/
def lastQuoteSplit (l : List Char) : Option (List Char) :=
  let pre := l.takeWhile (fun c => !isLineTerm c)
  match pre.reverse.dropWhile (fun c => c ≠ Char.ofNat 34) with
  | [] => none
  | _ :: rest => some rest.reverse

/-- The literal part of the pattern: the characters of `<link href="`. -/
def linkLit : List Char := "<link href=\"".data

/-- Model of `code.match(/<link href="(.*)"/)` (App.vue line 140): at the
leftmost position where the literal `<link href="` occurs and a closing
quote follows on the same line, capture greedily up to the last such
quote. -/
def firstLinkHrefMatch : List Char → Option (List Char)
  | [] => none
  | c :: t =>
    if (c :: t).take 12 = linkLit then
      match lastQuoteSplit ((c :: t).drop 12) with
      | some cap => some cap
      | none => firstLinkHrefMatch t
    else firstLinkHrefMatch t

/-- The stylesheet URL the handler extracts from the pasted markup. -/
def extractUrl (code : String) : Option String :=
  (firstLinkHrefMatch code.data).map String.mk

/-- Modelled from the spec: "Extract the first `href` attribute value from
the supplied markup" — the value of the leftmost `href="..."` attribute,
whatever tag it sits in.  Stated only to compare against what the source's
pattern actually extracts. -/
def firstHrefAttr : List Char → Option (List Char)
  | [] => none
  | c :: t =>
    if (c :: t).take 6 = ("href=\"".data) then
      let r := (c :: t).drop 6
      if (Char.ofNat 34) ∈ r then some (r.takeWhile (fun ch => ch ≠ Char.ofNat 34))
      else none
    else firstHrefAttr t

/-- Modelled from the spec: the first `href` attribute value in the markup. -/
def specFirstHref (code : String) : Option String :=
  (firstHrefAttr code.data).map String.mk

/-- The user-visible error text (App.vue line 144). -/
def fontCodeErrMsg : String :=
  "Could not find the stylesheet URL in font loading code"

/-- Sort lexicographically after removing duplicates, the model of
`sortBy(uniq(fonts))` (App.vue line 179). -/
def sortedFonts (fonts : List String) : List String :=
  fonts.dedup.mergeSort (fun a b => a ≤ b)

/-- The module-level state `handleFontLoadingCode` reads and writes: the
session cache of requested URLs (`loadedFonts`, line 136), the stylesheet
link elements appended to the document head (lines 155-158), the error
record (line 144) and the published font list (line 179). -/
structure FontState where
  loadedFonts : List String
  injectedLinks : List String
  fontError : Option String
  availableFontFaces : List String
deriving DecidableEq

/-- `handleFontLoadingCode` (App.vue lines 138-180) as a state transformer.
`docFonts` stands for the font families `document.fonts` reports once the
polling loop has settled.  A missing or empty captured URL records the
error and returns; a cached URL returns with nothing changed; otherwise the
URL is cached, a link element is injected, and after polling the sorted
deduplicated family list is published. -/
def handleFontLoadingCodeWith (docFonts : List String) (s : FontState) :
    Option String → FontState
  | none => { s with fontError := some fontCodeErrMsg }
  | some url =>
    if url = "" then { s with fontError := some fontCodeErrMsg }
    else if url ∈ s.loadedFonts then s
    else
      { s with
        loadedFonts := url :: s.loadedFonts
        injectedLinks := s.injectedLinks ++ [url]
        availableFontFaces := sortedFonts docFonts }

/-- The handler itself: pattern-match the pasted markup, then act on the
extracted URL. -/
def handleFontLoadingCode (docFonts : List String) (code : String) (s : FontState) :
    FontState :=
  handleFontLoadingCodeWith docFonts s (extractUrl code)

/-- Injection happens at most once per URL: every injected link is cached,
and no link is injected twice. -/
def FontInv (s : FontState) : Prop :=
  s.injectedLinks.Nodup ∧ ∀ u ∈ s.injectedLinks, u ∈ s.loadedFonts

/-! ## The font-readiness polling loop

App.vue lines 162-174: `lastSize` starts at `-1`, `livesRemaining` at 5;
each poll reads `document.fonts.size`, resets the lives on a change and
decrements them otherwise; the loop runs while the lives are positive.
`sizes n` is the size observed at the n-th poll; `pollState sizes n` is the
pair `(lastSize, livesRemaining)` before the n-th poll. -/

def pollState (sizes : ℕ → ℕ) : ℕ → ℤ × ℤ
  | 0 => (-1, 5)
  | n + 1 =>
    let p := pollState sizes n
    if (sizes n : ℤ) ≠ p.1 then ((sizes n : ℤ), 5) else (p.1, p.2 - 1)

/-- The loop executes polls `0..n` and then stops: the lives are positive
before every executed poll and hit zero right after poll `n`. -/
def stopsAfter (sizes : ℕ → ℕ) (n : ℕ) : Prop :=
  (pollState sizes (n + 1)).2 = 0 ∧ ∀ m, m ≤ n → 0 < (pollState sizes m).2

/-! ## The sync controller: debounce

Both `generateInvitationCard` (line 71) and `saveSettings` (line 107) are
`debounce(fn, 1000)` wrappers, triggered together by the watcher (lines
131-134).  Lodash's default debounce invokes only on the trailing edge:
a burst of calls produces one invocation 1000ms after the burst's last
call, and the invoked body reads the reactive refs at invocation time. -/

/-- The invocation times of a trailing-edge debounced function, given the
(increasing) trigger times: a trigger fires `wait` later unless the next
trigger arrives within the wait. -/
def debounceFires (wait : ℚ) : List ℚ → List ℚ
  | [] => []
  | [t] => [t + wait]
  | t :: t2 :: rest =>
    if t2 - t < wait then debounceFires wait (t2 :: rest)
    else (t + wait) :: debounceFires wait (t2 :: rest)

/-- The Settings snapshot a debounced body observes when it runs at time
`tau`: the value written by the last change at or before `tau`. -/
def snapshotAt (changes : List (ℚ × Settings)) (tau : ℚ) (d : Settings) : Settings :=
  changes.foldl (fun acc c => if c.1 ≤ tau then c.2 else acc) d

/-- The re-render action's invocation times for a burst of settings
changes. -/
def renderFires (changes : List (ℚ × Settings)) : List ℚ :=
  debounceFires 1000 (changes.map Prod.fst)

/-- The persist action's invocation times for the same burst (an
independent `debounce(fn, 1000)` wrapper triggered by the same watcher). -/
def persistFires (changes : List (ℚ × Settings)) : List ℚ :=
  debounceFires 1000 (changes.map Prod.fst)

/-! ## Predicates used by the claims -/

/-- `q` has a finite decimal expansion.  Every JavaScript float does, so
this is the honest image of "is a number the browser could hold" inside the
exact-rational model. -/
def DecimalRep (q : ℚ) : Prop :=
  ∃ (m : ℤ) (e : ℕ), q = (m : ℚ) / 10 ^ e

/-- `rest` does not start with a digit: a digit scan stops exactly at the
boundary. -/
def notDigitStart (rest : List Char) : Prop :=
  ∀ c t, rest = c :: t → c.isDigit = false

/-- `rest` cannot extend a decimal literal: it starts with no digit, no
decimal point and no exponent marker. -/
def notNumTail (rest : List Char) : Prop :=
  ∀ c t, rest = c :: t →
    c.isDigit = false ∧ c ≠ Char.ofNat 46 ∧ c ≠ Char.ofNat 101 ∧ c ≠ Char.ofNat 69

/-- The coordinates value is a two-element number array whose components
lie in the unit interval. -/
def inUnitSquare (j : Json) : Prop :=
  match j with
  | .arr [.num a, .num b] => 0 ≤ a ∧ a ≤ 1 ∧ 0 ≤ b ∧ b ≤ 1
  | _ => False

/-- Modelled from the spec: effective font size as the spec words it —
"(numeric sizePt, default 14 if unparsable) ÷ 600 × imageHeight".  Stated
only to compare against the source's `parseFloat(...) || 14` expression. -/
def specEffectiveSize (fontSize : String) (h : ℚ) : ℚ :=
  ((parseFloatModel fontSize).getD 14) / 600 * h

/-! ## Sample values for concrete instances -/

/-- A Settings value whose display name is the empty string. -/
def sampleEmptyName : Settings :=
  ⟨"", "", "sans-serif", "", "", "#000000", "14", defaultCoords⟩

/-- A Settings value with every string field nonempty or defaulted-empty. -/
def sampleGood : Settings :=
  ⟨"Tan Ah Kow", "", "sans-serif", "", "", "#000000", "14", defaultCoords⟩

/-- A font-handler state that has already requested one stylesheet URL. -/
def sampleFontState : FontState :=
  ⟨["https://u"], ["https://u"], none, []⟩

/-- A font-handler state carrying the stylesheet-URL error. -/
def sampleErrState : FontState :=
  ⟨[], [], some fontCodeErrMsg, []⟩

/-- Two sample settings snapshots for a burst of changes. -/
def sampleA : Settings :=
  ⟨"Jane", "", "sans-serif", "", "", "#000000", "14", defaultCoords⟩

/-- The snapshot after the second change of the burst. -/
def sampleB : Settings :=
  ⟨"Jane Doe", "", "sans-serif", "", "", "#000000", "30", defaultCoords⟩

/-! ## Lemmas: decimal digits -/

theorem natDigitsAux_eq_digits :
    ∀ fuel n, n ≤ fuel → natDigitsAux fuel n = Nat.digits 10 n := by
  intro fuel
  induction fuel with
  | zero =>
    intro n hn
    interval_cases n
    simp [natDigitsAux]
  | succ fuel ih =>
    intro n hn
    match n with
    | 0 => simp [natDigitsAux]
    | n + 1 =>
      have hdiv : (n + 1) / 10 ≤ fuel := by
        have := Nat.div_lt_self (Nat.succ_pos n) (by norm_num : 1 < 10)
        omega
      rw [show natDigitsAux (fuel + 1) (n + 1) =
            (n + 1) % 10 :: natDigitsAux fuel ((n + 1) / 10) from rfl,
        ih _ hdiv, Nat.digits_def' (by norm_num : 1 < 10) (Nat.succ_pos n)]

theorem natDigits_eq_digits (n : ℕ) : natDigits n = Nat.digits 10 n :=
  natDigitsAux_eq_digits n n le_rfl

theorem digitChar_toNat {d : ℕ} (hd : d < 10) : (Nat.digitChar d).toNat - 48 = d := by
  interval_cases d <;> decide

theorem digitChar_isDigit {d : ℕ} (hd : d < 10) : (Nat.digitChar d).isDigit = true := by
  interval_cases d <;> decide

theorem printNat_all_digits : ∀ n, ∀ c ∈ printNat n, c.isDigit = true := by
  intro n c hc
  unfold printNat at hc
  by_cases hn : n = 0
  · rw [if_pos hn] at hc
    simp only [List.mem_singleton] at hc
    subst hc
    decide
  · rw [if_neg hn] at hc
    simp only [List.mem_map, List.mem_reverse, natDigits_eq_digits] at hc
    obtain ⟨d, hd, rfl⟩ := hc
    exact digitChar_isDigit (Nat.digits_lt_base (by norm_num) hd)

theorem printNat_ne_nil (n : ℕ) : printNat n ≠ [] := by
  unfold printNat
  by_cases hn : n = 0
  · rw [if_pos hn]
    simp
  · rw [if_neg hn]
    simp only [ne_eq, List.map_eq_nil_iff, List.reverse_eq_nil_iff, natDigits_eq_digits]
    exact Nat.digits_ne_nil_iff_ne_zero.mpr hn

theorem foldl_digitChars (ds : List ℕ) (hd : ∀ d ∈ ds, d < 10) :
    ∀ acc : ℕ,
      List.foldl (fun acc c => 10 * acc + (c.toNat - 48)) acc
          (ds.reverse.map Nat.digitChar) =
        acc * 10 ^ ds.length + Nat.ofDigits 10 ds := by
  induction ds with
  | nil => intro acc; simp [Nat.ofDigits_nil]
  | cons d ds ih =>
    intro acc
    have hd0 : d < 10 := hd d (List.mem_cons_self d ds)
    have hds : ∀ x ∈ ds, x < 10 := fun x hx => hd x (List.mem_cons_of_mem d hx)
    rw [List.reverse_cons, List.map_append, List.foldl_append, ih hds acc]
    simp only [List.map_cons, List.map_nil, List.foldl_cons, List.foldl_nil,
      digitChar_toNat hd0, Nat.ofDigits_cons, List.length_cons]
    ring

theorem digitsToNat_printNat (n : ℕ) : digitsToNat (printNat n) = n := by
  unfold printNat digitsToNat
  by_cases hn : n = 0
  · rw [if_pos hn, hn]
    rfl
  · rw [if_neg hn, natDigits_eq_digits,
      foldl_digitChars _ (fun d hd => Nat.digits_lt_base (by norm_num) hd) 0,
      Nat.ofDigits_digits]
    ring

theorem printNat_length_le {n e : ℕ} (hne : n < 10 ^ e) (he : 0 < e) :
    (printNat n).length ≤ e := by
  unfold printNat
  by_cases hn : n = 0
  · rw [if_pos hn]
    simpa using he
  · rw [if_neg hn]
    simp only [List.length_map, List.length_reverse, natDigits_eq_digits]
    rw [Nat.digits_len 10 n (by norm_num) hn]
    have : Nat.log 10 n < e := Nat.log_lt_of_lt_pow hn hne
    omega

theorem printNat_head_digit (n : ℕ) :
    ∃ c t, printNat n = c :: t ∧ c.isDigit = true := by
  match h : printNat n with
  | [] => exact absurd h (printNat_ne_nil n)
  | c :: t =>
    refine ⟨c, t, rfl, printNat_all_digits n c ?_⟩
    rw [h]
    exact List.mem_cons_self c t

/-! ## Lemmas: takeWhile and dropWhile across a boundary -/

theorem takeWhile_all_append {p : Char → Bool} :
    ∀ (l r : List Char), (∀ c ∈ l, p c = true) →
      List.takeWhile p (l ++ r) = l ++ List.takeWhile p r := by
  intro l
  induction l with
  | nil => intro r _; rfl
  | cons c t ih =>
    intro r hl
    rw [List.cons_append, List.takeWhile_cons, if_pos (hl c (List.mem_cons_self c t)),
      ih r (fun x hx => hl x (List.mem_cons_of_mem c hx)), List.cons_append]

theorem dropWhile_all_append {p : Char → Bool} :
    ∀ (l r : List Char), (∀ c ∈ l, p c = true) →
      List.dropWhile p (l ++ r) = List.dropWhile p r := by
  intro l
  induction l with
  | nil => intro r _; rfl
  | cons c t ih =>
    intro r hl
    rw [List.cons_append, List.dropWhile_cons, if_pos (hl c (List.mem_cons_self c t)),
      ih r (fun x hx => hl x (List.mem_cons_of_mem c hx))]

theorem takeWhile_nil_of_head {p : Char → Bool} {r : List Char}
    (hr : ∀ c t, r = c :: t → p c = false) : List.takeWhile p r = [] := by
  match r with
  | [] => rfl
  | c :: t => rw [List.takeWhile_cons, if_neg (by simp [hr c t rfl])]

theorem dropWhile_id_of_head {p : Char → Bool} {r : List Char}
    (hr : ∀ c t, r = c :: t → p c = false) : List.dropWhile p r = r := by
  match r with
  | [] => rfl
  | c :: t => rw [List.dropWhile_cons, if_neg (by simp [hr c t rfl])]

/-! ## Lemmas: finite decimal expansions and the rendering exponent -/

theorem maxPowAux_pow_mul {p : ℕ} (hp : 1 < p) {m : ℕ} (hm : 0 < m) (hpm : ¬p ∣ m) :
    ∀ (a fuel : ℕ), p ^ a * m ≤ fuel → maxPowAux p fuel (p ^ a * m) = a := by
  intro a
  induction a with
  | zero =>
    intro fuel hle
    match fuel with
    | 0 => rfl
    | fuel + 1 =>
      show (if 1 < p ∧ 0 < p ^ 0 * m ∧ p ∣ p ^ 0 * m then _ else 0) = 0
      rw [if_neg]
      intro ⟨_, _, hdvd⟩
      rw [pow_zero, one_mul] at hdvd
      exact hpm hdvd
  | succ a ih =>
    intro fuel hle
    have hpos : 0 < p ^ (a + 1) * m :=
      Nat.mul_pos (Nat.pos_pow_of_pos _ (by omega)) hm
    match fuel with
    | 0 => omega
    | fuel + 1 =>
      have hdvd : p ∣ p ^ (a + 1) * m := Dvd.dvd.mul_right (dvd_pow_self p (Nat.succ_ne_zero a)) m
      show (if 1 < p ∧ 0 < p ^ (a + 1) * m ∧ p ∣ p ^ (a + 1) * m then
          maxPowAux p fuel (p ^ (a + 1) * m / p) + 1 else 0) = a + 1
      rw [if_pos ⟨hp, hpos, hdvd⟩]
      have hquot : p ^ (a + 1) * m / p = p ^ a * m := by
        rw [pow_succ, mul_comm (p ^ a) p, mul_assoc]
        exact Nat.mul_div_cancel_left _ (by omega)
      have hlt : p ^ (a + 1) * m / p < p ^ (a + 1) * m := Nat.div_lt_self hpos hp
      rw [hquot]
      rw [ih fuel (by omega)]

theorem maxPow_pow_mul {p : ℕ} (hp : 1 < p) {m : ℕ} (hm : 0 < m) (hpm : ¬p ∣ m) (a : ℕ) :
    maxPow p (p ^ a * m) = a :=
  maxPowAux_pow_mul hp hm hpm a _ le_rfl

theorem dvd_ten_pow_decomp {d e : ℕ} (hd : d ∣ 10 ^ e) : ∃ a b, d = 2 ^ a * 5 ^ b := by
  have h10 : (10 : ℕ) ^ e = 2 ^ e * 5 ^ e := by
    rw [show (10 : ℕ) = 2 * 5 from rfl, mul_pow]
  have hcop : Nat.Coprime (2 ^ e) (5 ^ e) := Nat.Coprime.pow e e (by decide)
  have hsplit := (Nat.gcd_mul_gcd_eq_iff_dvd_mul_of_coprime hcop).2 (h10 ▸ hd)
  obtain ⟨a, _, ha⟩ :=
    (Nat.dvd_prime_pow Nat.prime_two).1 (Nat.gcd_dvd_right d (2 ^ e))
  obtain ⟨b, _, hb⟩ :=
    (Nat.dvd_prime_pow (by norm_num : Nat.Prime 5)).1 (Nat.gcd_dvd_right d (5 ^ e))
  exact ⟨a, b, by rw [← hsplit, ha, hb]⟩

theorem decimalRep_den_dvd {q : ℚ} (h : DecimalRep q) : ∃ e, q.den ∣ 10 ^ e := by
  obtain ⟨m, e, rfl⟩ := h
  refine ⟨e, ?_⟩
  have hq : ((m : ℚ) / 10 ^ e) = Rat.divInt m ((10 : ℤ) ^ e) := by
    rw [Rat.divInt_eq_div]
    push_cast
    ring
  rw [hq]
  have := Rat.den_dvd m ((10 : ℤ) ^ e)
  have h10 : ((10 : ℤ) ^ e) = ((10 ^ e : ℕ) : ℤ) := by push_cast; ring
  rw [h10] at this
  exact_mod_cast this

theorem den_dvd_decExp {q : ℚ} (h : DecimalRep q) : q.den ∣ 10 ^ decExp q := by
  obtain ⟨e₀, hdvd⟩ := decimalRep_den_dvd h
  obtain ⟨a, b, hab⟩ := dvd_ten_pow_decomp hdvd
  have h2 : ¬(2 : ℕ) ∣ 5 ^ b :=
    (Nat.Prime.coprime_iff_not_dvd Nat.prime_two).1 (Nat.Coprime.pow_right b (by decide))
  have h5 : ¬(5 : ℕ) ∣ 2 ^ a :=
    (Nat.Prime.coprime_iff_not_dvd (by norm_num)).1 (Nat.Coprime.pow_right a (by decide))
  have hm2 : maxPow 2 q.den = a := by
    rw [hab]
    exact maxPow_pow_mul (by norm_num) (Nat.pos_pow_of_pos b (by norm_num)) h2 a
  have hm5 : maxPow 5 q.den = b := by
    rw [hab, mul_comm]
    exact maxPow_pow_mul (by norm_num) (Nat.pos_pow_of_pos a (by norm_num)) h5 b
  rw [decExp, hm2, hm5, hab]
  have h10 : (10 : ℕ) ^ max a b = 2 ^ max a b * 5 ^ max a b := by
    rw [show (10 : ℕ) = 2 * 5 from rfl, mul_pow]
  rw [h10]
  exact Nat.mul_dvd_mul (pow_dvd_pow 2 (le_max_left a b)) (pow_dvd_pow 5 (le_max_right a b))

theorem printM_cast {q : ℚ} (h : DecimalRep q) :
    ((printM q : ℤ) : ℚ) = q * 10 ^ decExp q := by
  have hdvd : (q.den : ℤ) ∣ q.num * (10 : ℤ) ^ decExp q := by
    have h1 : (q.den : ℤ) ∣ (10 : ℤ) ^ decExp q := by
      have := Int.natCast_dvd_natCast.mpr (den_dvd_decExp h)
      have h10 : (((10 : ℕ) ^ decExp q : ℕ) : ℤ) = (10 : ℤ) ^ decExp q := by push_cast; ring
      rwa [h10] at this
    exact Dvd.dvd.mul_left h1 q.num
  have hm : printM q * (q.den : ℤ) = q.num * (10 : ℤ) ^ decExp q :=
    Int.ediv_mul_cancel hdvd
  have hden : ((q.den : ℤ) : ℚ) ≠ 0 := by
    exact_mod_cast q.den_nz
  have hcast := congrArg (fun z : ℤ => (z : ℚ)) hm
  push_cast at hcast
  apply mul_right_cancel₀ hden
  push_cast
  rw [hcast]
  rw [mul_comm q (10 ^ decExp q), mul_assoc, Rat.mul_den_eq_num]
  ring

theorem printM_natAbs_cast {q : ℚ} (h : DecimalRep q) :
    (((printM q).natAbs : ℕ) : ℚ) = |q| * 10 ^ decExp q := by
  have hc := printM_cast h
  rw [Int.cast_natAbs, Int.cast_abs, hc, abs_mul]
  congr 1
  rw [abs_of_nonneg]
  positivity

/-! ## Lemmas: scanning a printed number back in -/

theorem ne_of_isDigit_of_not {c d : Char} (h : c.isDigit = true)
    (hd : d.isDigit = false) : c ≠ d := by
  intro he
  subst he
  rw [h] at hd
  cases hd

theorem digit_not_ws {c : Char} (h : c.isDigit = true) : jsonWs c = false := by
  have h32 : c ≠ Char.ofNat 32 := ne_of_isDigit_of_not h (by decide)
  have h9 : c ≠ Char.ofNat 9 := ne_of_isDigit_of_not h (by decide)
  have h10 : c ≠ Char.ofNat 10 := ne_of_isDigit_of_not h (by decide)
  have h13 : c ≠ Char.ofNat 13 := ne_of_isDigit_of_not h (by decide)
  simp [jsonWs, h32, h9, h10, h13]

theorem notDigitStart_of_notNumTail {rest : List Char} (h : notNumTail rest) :
    notDigitStart rest :=
  fun c t hct => (h c t hct).1

theorem parseDigits_append {ds rest : List Char} (hds : ∀ c ∈ ds, c.isDigit = true)
    (hne : ds ≠ []) (hrest : notDigitStart rest) :
    parseDigits (ds ++ rest) = some (digitsToNat ds, ds.length, rest) := by
  unfold parseDigits
  rw [takeWhile_all_append ds rest hds, takeWhile_nil_of_head hrest,
    dropWhile_all_append ds rest hds, dropWhile_id_of_head hrest, List.append_nil]
  rw [if_neg (by simpa [List.isEmpty_iff] using hne)]

theorem parseFracPart_stop {rest : List Char} (hrest : notNumTail rest) :
    parseFracPart rest = some (0, 0, rest) := by
  match rest with
  | [] => rfl
  | c :: t =>
    rw [parseFracPart, if_neg (hrest c t rfl).2.1]

theorem parseExpPart_stop {rest : List Char} (hrest : notNumTail rest) :
    parseExpPart rest = some (0, rest) := by
  match rest with
  | [] => rfl
  | c :: t =>
    rw [parseExpPart, if_neg]
    intro hor
    rcases hor with h1 | h1
    · exact (hrest c t rfl).2.2.1 h1
    · exact (hrest c t rfl).2.2.2 h1

theorem foldl_zero_replicate (k : ℕ) :
    List.foldl (fun acc c => 10 * acc + (c.toNat - 48)) 0
        (List.replicate k (Char.ofNat 48)) = 0 := by
  induction k with
  | zero => rfl
  | succ k ih =>
    rw [List.replicate_succ, List.foldl_cons]
    simpa using ih

theorem digitsToNat_pad (k : ℕ) (n : ℕ) :
    digitsToNat (List.replicate k (Char.ofNat 48) ++ printNat n) = n := by
  unfold digitsToNat
  rw [List.foldl_append, foldl_zero_replicate]
  exact digitsToNat_printNat n

/-- A printed magnitude scans back to the absolute value scaled by the
rendering exponent: the integer-digits, fraction and exponent scanners
consume exactly the characters `printNumCore` produced. -/
theorem parseNumMag_core {q : ℚ} (h : DecimalRep q) {rest : List Char}
    (hrest : notNumTail rest) :
    parseNumMag (printNumCore q ++ rest) = some (|q|, rest) := by
  by_cases he : decExp q = 0
  case pos =>
    have hcore : printNumCore q = printNat (printM q).natAbs := by
      rw [printNumCore, if_pos he]
    rw [hcore]
    unfold parseNumMag
    rw [parseDigits_append (printNat_all_digits _) (printNat_ne_nil _)
      (notDigitStart_of_notNumTail hrest)]
    rw [Option.some_bind, parseFracPart_stop hrest, Option.some_bind,
      parseExpPart_stop hrest, Option.map_some']
    rw [digitsToNat_printNat]
    have habs := printM_natAbs_cast h
    rw [he, pow_zero, mul_one] at habs
    rw [habs]
    norm_num
  case neg =>
    have hepos : 0 < decExp q := Nat.pos_of_ne_zero he
    set e := decExp q with hedef
    set ip := (printM q).natAbs / 10 ^ e with hipdef
    set fp := (printM q).natAbs % 10 ^ e with hfpdef
    set fd := List.replicate (e - (printNat fp).length) (Char.ofNat 48) ++ printNat fp
      with hfddef
    have hcore : printNumCore q = printNat ip ++ Char.ofNat 46 :: fd := by
      rw [printNumCore, if_neg he]
    have hfd_digits : ∀ c ∈ fd, c.isDigit = true := by
      intro c hc
      rw [hfddef] at hc
      rcases List.mem_append.1 hc with hrep | hpn
      · rw [List.eq_of_mem_replicate hrep]
        decide
      · exact printNat_all_digits fp c hpn
    have hfd_ne : fd ≠ [] := by
      rw [hfddef]
      intro hnil
      rcases List.append_eq_nil.1 hnil with ⟨_, hpn⟩
      exact printNat_ne_nil fp hpn
    have hfd_len : fd.length = e := by
      rw [hfddef, List.length_append, List.length_replicate]
      have hlt : fp < 10 ^ e := Nat.mod_lt _ (Nat.pos_pow_of_pos e (by norm_num))
      have := printNat_length_le hlt hepos
      omega
    have hdot : notDigitStart (Char.ofNat 46 :: (fd ++ rest)) := by
      intro c t hct
      cases hct
      decide
    rw [hcore]
    unfold parseNumMag
    rw [List.append_assoc, List.cons_append]
    rw [parseDigits_append (printNat_all_digits _) (printNat_ne_nil _) hdot]
    rw [Option.some_bind]
    show (parseFracPart (Char.ofNat 46 :: (fd ++ rest))).bind _ = _
    have hfrac : parseFracPart (Char.ofNat 46 :: (fd ++ rest)) =
        some (digitsToNat fd, fd.length, rest) := by
      rw [parseFracPart, if_pos rfl]
      exact parseDigits_append hfd_digits hfd_ne (notDigitStart_of_notNumTail hrest)
    rw [hfrac, Option.some_bind, parseExpPart_stop hrest, Option.map_some']
    have hfdval : digitsToNat fd = fp := by
      rw [hfddef]
      exact digitsToNat_pad _ fp
    rw [hfdval, digitsToNat_printNat, hfd_len]
    congr 1
    congr 1
    have hsplit : (10 : ℚ) ^ e * (ip : ℚ) + (fp : ℚ) = ((printM q).natAbs : ℚ) := by
      rw [hipdef, hfpdef]
      exact_mod_cast
        congrArg (fun n : ℕ => (n : ℚ)) (Nat.div_add_mod (printM q).natAbs (10 ^ e))
    have habs := printM_natAbs_cast h
    rw [← hedef] at habs
    have hpow : ((10 : ℚ) ^ e) ≠ 0 := by positivity
    rw [zpow_zero, mul_one]
    rw [eq_comm, ← sub_eq_zero]
    field_simp
    nlinarith [hsplit, habs]

/-- A printed number scans back to exactly its value, leaving the tail
untouched. -/
theorem parseNumber_printNum {q : ℚ} (h : DecimalRep q) {rest : List Char}
    (hrest : notNumTail rest) :
    parseNumber (printNum q ++ rest) = some (q, rest) := by
  by_cases hq : q < 0
  case pos =>
    have hpn : printNum q = Char.ofNat 45 :: printNumCore q := by
      rw [printNum, if_pos hq]
    rw [hpn, List.cons_append]
    rw [parseNumber, if_pos rfl, parseNumMag_core h hrest]
    simp only [Option.map_some']
    rw [abs_of_neg hq, neg_neg]
  case neg =>
    have hpn : printNum q = printNumCore q := by
      rw [printNum, if_neg hq]
    obtain ⟨c, t, hct, hcd⟩ : ∃ c t, printNumCore q = c :: t ∧ c.isDigit = true := by
      by_cases he : decExp q = 0
      · have hc0 : printNumCore q = printNat (printM q).natAbs := by
          rw [printNumCore, if_pos he]
        obtain ⟨c, t, hct, hcd⟩ := printNat_head_digit (printM q).natAbs
        exact ⟨c, t, by rw [hc0, hct], hcd⟩
      · have hc0 : printNumCore q =
            printNat ((printM q).natAbs / 10 ^ decExp q) ++ Char.ofNat 46 ::
              (List.replicate
                  (decExp q - (printNat ((printM q).natAbs % 10 ^ decExp q)).length)
                  (Char.ofNat 48) ++
                printNat ((printM q).natAbs % 10 ^ decExp q)) := by
          rw [printNumCore, if_neg he]
        obtain ⟨c, t, hct, hcd⟩ := printNat_head_digit ((printM q).natAbs / 10 ^ decExp q)
        exact ⟨c, _, by rw [hc0, hct, List.cons_append], hcd⟩
    rw [hpn, hct, List.cons_append]
    rw [parseNumber, if_neg (ne_of_isDigit_of_not hcd (by decide)), ← List.cons_append,
      ← hct, parseNumMag_core h hrest]
    rw [abs_of_nonneg (le_of_not_gt hq)]

/-! ## Lemmas: parsing a printed two-number array -/

theorem printNum_head (q : ℚ) :
    ∃ c t, printNum q = c :: t ∧ (c = Char.ofNat 45 ∨ c.isDigit = true) := by
  by_cases hq : q < 0
  · exact ⟨Char.ofNat 45, printNumCore q, by rw [printNum, if_pos hq], Or.inl rfl⟩
  · have hpn : printNum q = printNumCore q := by rw [printNum, if_neg hq]
    by_cases he : decExp q = 0
    · have hc0 : printNumCore q = printNat (printM q).natAbs := by
        rw [printNumCore, if_pos he]
      obtain ⟨c, t, hct, hcd⟩ := printNat_head_digit (printM q).natAbs
      exact ⟨c, t, by rw [hpn, hc0, hct], Or.inr hcd⟩
    · have hc0 : printNumCore q =
          printNat ((printM q).natAbs / 10 ^ decExp q) ++ Char.ofNat 46 ::
            (List.replicate
                (decExp q - (printNat ((printM q).natAbs % 10 ^ decExp q)).length)
                (Char.ofNat 48) ++
              printNat ((printM q).natAbs % 10 ^ decExp q)) := by
        rw [printNumCore, if_neg he]
      obtain ⟨c, t, hct, hcd⟩ := printNat_head_digit ((printM q).natAbs / 10 ^ decExp q)
      exact ⟨c, _, by rw [hpn, hc0, hct, List.cons_append], Or.inr hcd⟩

theorem numStart_not_special {c : Char} (h : c = Char.ofNat 45 ∨ c.isDigit = true) :
    c ≠ Char.ofNat 110 ∧ c ≠ Char.ofNat 116 ∧ c ≠ Char.ofNat 102 ∧
      c ≠ Char.ofNat 34 ∧ c ≠ Char.ofNat 91 ∧ jsonWs c = false := by
  rcases h with hdash | hdig
  · subst hdash
    refine ⟨by decide, by decide, by decide, by decide, by decide, by decide⟩
  · exact ⟨ne_of_isDigit_of_not hdig (by decide), ne_of_isDigit_of_not hdig (by decide),
      ne_of_isDigit_of_not hdig (by decide), ne_of_isDigit_of_not hdig (by decide),
      ne_of_isDigit_of_not hdig (by decide), digit_not_ws hdig⟩

theorem skipWs_cons {c : Char} (hc : jsonWs c = false) (t : List Char) :
    skipWs (c :: t) = c :: t := by
  rw [skipWs, List.dropWhile_cons, if_neg (by simp [hc])]

/-- One top-level parse step turns a printed number into its value. -/
theorem parseVal_printNum (fuel : ℕ) {q : ℚ} (h : DecimalRep q) {rest : List Char}
    (hrest : notNumTail rest) :
    parseVal (fuel + 1) (printNum q ++ rest) = some (.num q, rest) := by
  obtain ⟨c, t, hct, hc⟩ := printNum_head q
  obtain ⟨h110, h116, h102, h34, h91, hws⟩ := numStart_not_special hc
  rw [parseVal, hct, List.cons_append, skipWs_cons hws]
  rw [parseValHead, if_neg h110, if_neg h116, if_neg h102, if_neg h34, if_neg h91,
    if_pos (by simpa using hc), ← List.cons_append, ← hct,
    parseNumber_printNum h hrest, Option.map_some']

/-- Parsing the printed form `[A,B]` of a two-number array returns exactly
that array. -/
theorem parseVal_pair (fuel : ℕ) {a b : ℚ} (ha : DecimalRep a) (hb : DecimalRep b)
    (rest : List Char) :
    parseVal (fuel + 3)
        (Char.ofNat 91 ::
          ((printNum a ++ Char.ofNat 44 :: printNum b) ++ Char.ofNat 93 :: rest)) =
      some (.arr [.num a, .num b], rest) := by
  obtain ⟨ca, ta, hcta, hca⟩ := printNum_head a
  obtain ⟨cb, tb, hctb, hcb⟩ := printNum_head b
  have hwsa := (numStart_not_special hca).2.2.2.2.2
  have hwsb := (numStart_not_special hcb).2.2.2.2.2
  have h93a : ca ≠ Char.ofNat 93 := by
    rcases hca with h1 | h1
    · subst h1; decide
    · exact ne_of_isDigit_of_not h1 (by decide)
  have hta : notNumTail (Char.ofNat 44 :: (printNum b ++ Char.ofNat 93 :: rest)) := by
    intro c t hct
    cases hct
    refine ⟨by decide, by decide, by decide, by decide⟩
  have htb : notNumTail (Char.ofNat 93 :: rest) := by
    intro c t hct
    cases hct
    refine ⟨by decide, by decide, by decide, by decide⟩
  rw [parseVal, skipWs_cons (by decide)]
  rw [parseValHead, if_neg (by decide), if_neg (by decide), if_neg (by decide),
    if_neg (by decide), if_pos rfl]
  have hshape : (printNum a ++ Char.ofNat 44 :: printNum b) ++ Char.ofNat 93 :: rest =
      printNum a ++ (Char.ofNat 44 :: (printNum b ++ Char.ofNat 93 :: rest)) := by
    rw [List.append_assoc, List.cons_append]
  rw [hshape, hcta, List.cons_append, skipWs_cons hwsa]
  rw [parseArrTail, if_neg h93a, ← List.cons_append, ← hcta]
  have hfa : parseVal (fuel + 2) (printNum a ++
      (Char.ofNat 44 :: (printNum b ++ Char.ofNat 93 :: rest))) =
      some (.num a, Char.ofNat 44 :: (printNum b ++ Char.ofNat 93 :: rest)) :=
    parseVal_printNum (fuel + 1) ha hta
  rw [parseItemsWith, hfa, Option.some_bind]
  rw [skipWs_cons (by decide)]
  rw [parseItemsTail, if_pos rfl]
  have hskipb : skipWs (printNum b ++ Char.ofNat 93 :: rest) =
      printNum b ++ Char.ofNat 93 :: rest := by
    rw [hctb, List.cons_append, skipWs_cons hwsb, ← List.cons_append, ← hctb]
  rw [hskipb]
  have hfb : parseVal (fuel + 2) (printNum b ++ Char.ofNat 93 :: rest) =
      some (.num b, Char.ofNat 93 :: rest) :=
    parseVal_printNum (fuel + 1) hb htb
  rw [parseItemsWith, hfb, Option.some_bind]
  rw [skipWs_cons (by decide)]
  rw [parseItemsTail, if_neg (by decide), if_pos rfl]
  rw [Option.map_some', Option.map_some']

theorem jsonStringify_pair (a b : ℚ) :
    jsonStringify (Json.arr [Json.num a, Json.num b]) =
      String.mk (Char.ofNat 91 ::
        ((printNum a ++ Char.ofNat 44 :: printNum b) ++ Char.ofNat 93 :: [])) := rfl

/-- `JSON.parse` inverts `JSON.stringify` on two-number arrays. -/
theorem jsonParse_stringify_pair {a b : ℚ} (ha : DecimalRep a) (hb : DecimalRep b) :
    jsonParse (jsonStringify (Json.arr [Json.num a, Json.num b])) =
      .ok (Json.arr [Json.num a, Json.num b]) := by
  rw [jsonStringify_pair, jsonParse]
  have hdata : (String.mk (Char.ofNat 91 ::
      ((printNum a ++ Char.ofNat 44 :: printNum b) ++ Char.ofNat 93 :: []))).data =
      Char.ofNat 91 ::
        ((printNum a ++ Char.ofNat 44 :: printNum b) ++ Char.ofNat 93 :: []) := rfl
  have hfuel : (String.mk (Char.ofNat 91 ::
      ((printNum a ++ Char.ofNat 44 :: printNum b) ++ Char.ofNat 93 :: []))).length + 1 =
      ((printNum a).length + (printNum b).length + 1) + 3 := by
    simp [String.length]
    omega
  rw [hdata, hfuel, parseVal_pair _ ha hb []]
  rfl

/-! ## Lemmas: the query-parameter map -/

theorem setParam_same (p : Params) (k v : String) : setParam p k v k = some v := by
  simp [setParam]

theorem setParam_other (p : Params) (k v k' : String) (h : k' ≠ k) :
    setParam p k v k' = p k' := by
  simp [setParam, h]

theorem saveSettings_coordinates (s : Settings) (p : Params) :
    saveSettings s p "coordinates" = some (jsonStringify s.coordinates) := by
  simp [saveSettings, setParam]

theorem saveSettings_name (s : Settings) (p : Params) :
    saveSettings s p "name" = some s.name := by
  simp [saveSettings, setParam]

theorem saveSettings_fontFamily (s : Settings) (p : Params) :
    saveSettings s p "fontFamily" = some s.fontFamily := by
  simp [saveSettings, setParam]

theorem saveSettings_isBold (s : Settings) (p : Params) :
    saveSettings s p "isBold" = some s.isBold := by
  simp [saveSettings, setParam]

theorem saveSettings_isItalic (s : Settings) (p : Params) :
    saveSettings s p "isItalic" = some s.isItalic := by
  simp [saveSettings, setParam]

theorem saveSettings_fontLoadingCode (s : Settings) (p : Params) :
    saveSettings s p "fontLoadingCode" = some s.fontLoadingCode := by
  simp [saveSettings, setParam]

theorem saveSettings_fontSize (s : Settings) (p : Params) :
    saveSettings s p "fontSize" = some s.fontSize := by
  simp [saveSettings, setParam]

theorem saveSettings_fontColor (s : Settings) (p : Params) :
    saveSettings s p "fontColor" = some s.fontColor := by
  simp [saveSettings, setParam]

theorem loadStringParam_getD {p : Params} {key v : String} (h : p key = some v)
    (d : String) : (loadStringParam p key).getD d = if v = "" then d else v := by
  rw [loadStringParam, h, Option.some_bind]
  by_cases hv : v = "" <;> simp [hv]

/-- What a full persist-then-reload cycle produces: every string field
comes back unchanged unless it was empty, in which case its startup default
takes over; the JSON-encoded coordinates come back unchanged. -/
theorem loadSettings_saveSettings (s : Settings) (p : Params) {a b : ℚ}
    (hc : s.coordinates = .arr [.num a, .num b]) (ha : DecimalRep a)
    (hb : DecimalRep b) :
    loadSettings (saveSettings s p) =
      .ok { name := if s.name = "" then "Tan Ah Kow" else s.name
            fontLoadingCode := s.fontLoadingCode
            fontFamily := if s.fontFamily = "" then "sans-serif" else s.fontFamily
            isItalic := s.isItalic
            isBold := s.isBold
            fontColor := if s.fontColor = "" then "#000000" else s.fontColor
            fontSize := if s.fontSize = "" then "14" else s.fontSize
            coordinates := s.coordinates } := by
  have hne : jsonStringify s.coordinates ≠ "" := by
    rw [hc, jsonStringify_pair]
    intro hx
    have hd := congrArg String.data hx
    simp at hd
  rw [loadSettings, loadObjectParam, saveSettings_coordinates]
  rw [loadObjectParamVal, if_neg hne, hc, jsonParse_stringify_pair ha hb]
  show Except.ok (buildSettings (saveSettings s p) (some (Json.arr [.num a, .num b]))) = _
  congr 1
  rw [buildSettings]
  rw [loadStringParam_getD (saveSettings_name s p),
    loadStringParam_getD (saveSettings_fontLoadingCode s p),
    loadStringParam_getD (saveSettings_fontFamily s p),
    loadStringParam_getD (saveSettings_isItalic s p),
    loadStringParam_getD (saveSettings_isBold s p),
    loadStringParam_getD (saveSettings_fontColor s p),
    loadStringParam_getD (saveSettings_fontSize s p)]
  have hco : coordsOrDefault (some (Json.arr [.num a, .num b])) = s.coordinates := by
    simp [coordsOrDefault, jsonTruthy, hc]
  rw [hco]
  have hii : (if s.isItalic = "" then "" else s.isItalic) = s.isItalic := by
    by_cases h : s.isItalic = "" <;> simp [h]
  have hib : (if s.isBold = "" then "" else s.isBold) = s.isBold := by
    by_cases h : s.isBold = "" <;> simp [h]
  have hflc : (if s.fontLoadingCode = "" then "" else s.fontLoadingCode) =
      s.fontLoadingCode := by
    by_cases h : s.fontLoadingCode = "" <;> simp [h]
  rw [hii, hib, hflc, hc]

/-! ## Lemmas: the font-readiness polling loop -/

theorem pollState_fst (sizes : ℕ → ℕ) (n : ℕ) :
    (pollState sizes (n + 1)).1 = (sizes n : ℤ) := by
  by_cases h : (sizes n : ℤ) ≠ (pollState sizes n).1
  · simp only [pollState, if_pos h]
  · simp only [pollState, if_neg h]
    exact (not_not.1 h).symm

theorem pollState_snd_le (sizes : ℕ → ℕ) : ∀ n, (pollState sizes n).2 ≤ 5 := by
  intro n
  induction n with
  | zero => norm_num [pollState]
  | succ n ih =>
    by_cases h : (sizes n : ℤ) ≠ (pollState sizes n).1
    · simp only [pollState, if_pos h]
      omega
    · simp only [pollState, if_neg h]
      omega

theorem pollState_snd_succ (sizes : ℕ → ℕ) (n : ℕ) :
    (pollState sizes (n + 1)).2 = 5 ∧ (sizes n : ℤ) ≠ (pollState sizes n).1 ∨
      (pollState sizes (n + 1)).2 = (pollState sizes n).2 - 1 ∧
        (sizes n : ℤ) = (pollState sizes n).1 := by
  by_cases h : (sizes n : ℤ) ≠ (pollState sizes n).1
  · exact Or.inl ⟨by simp only [pollState, if_pos h], h⟩
  · exact Or.inr ⟨by simp only [pollState, if_neg h], not_not.1 h⟩

/-- One backwards step out of the countdown: if the lives land strictly
below the reset value, the poll was an unchanged observation and the lives
before it were one higher. -/
theorem poll_back_step (sizes : ℕ → ℕ) (m : ℕ) (j : ℤ)
    (hj : (pollState sizes (m + 1)).2 = j) (hj5 : j < 5) :
    (sizes m : ℤ) = (pollState sizes m).1 ∧ (pollState sizes m).2 = j + 1 := by
  rcases pollState_snd_succ sizes m with ⟨h5, _⟩ | ⟨hdec, heq⟩
  · omega
  · exact ⟨heq, by omega⟩

theorem poll_exists_zero (sizes : ℕ → ℕ) (N : ℕ)
    (hconst : ∀ m, N ≤ m → sizes m = sizes N) :
    ∃ n, (pollState sizes (n + 1)).2 = 0 := by
  by_contra hno
  push_neg at hno
  have hpos : ∀ n, 0 < (pollState sizes n).2 := by
    intro n
    induction n with
    | zero => norm_num [pollState]
    | succ n ih =>
      have hne := hno n
      rcases pollState_snd_succ sizes n with ⟨h5, _⟩ | ⟨hdec, _⟩
      · omega
      · omega
  have hunch : ∀ k, (pollState sizes (N + 1 + k + 1)).2 =
      (pollState sizes (N + 1 + k)).2 - 1 := by
    intro k
    have h1 : (pollState sizes (N + 1 + k)).1 = (sizes (N + k) : ℤ) := by
      have := pollState_fst sizes (N + k)
      rw [show N + 1 + k = N + k + 1 from by omega]
      exact this
    have h2 : sizes (N + 1 + k) = sizes (N + k) := by
      rw [hconst (N + 1 + k) (by omega), hconst (N + k) (by omega)]
    rcases pollState_snd_succ sizes (N + 1 + k) with ⟨_, hch⟩ | ⟨hdec, _⟩
    · exact absurd (by rw [h1, h2]) hch
    · exact hdec
  have hdrop : ∀ k, (pollState sizes (N + 1 + k)).2 =
      (pollState sizes (N + 1)).2 - k := by
    intro k
    induction k with
    | zero => norm_num
    | succ k ih =>
      have := hunch k
      rw [show N + 1 + (k + 1) = N + 1 + k + 1 from by omega, this, ih]
      push_cast
      ring
  have hv := hpos (N + 1)
  have h0 := hdrop ((pollState sizes (N + 1)).2.toNat
  )
  rw [Int.toNat_of_nonneg (by omega)] at h0
  have : (pollState sizes (N + 1 + (pollState sizes (N + 1)).2.toNat)).2 = 0 := by
    omega
  rcases Nat.exists_eq_add_of_le (show 1 ≤ N + 1 + (pollState sizes (N + 1)).2.toNat
    from by omega) with ⟨j, hj⟩
  exact hno (N + (pollState sizes (N + 1)).2.toNat)
    (by rw [show N + (pollState sizes (N + 1)).2.toNat + 1 =
          N + 1 + (pollState sizes (N + 1)).2.toNat from by omega]
        exact this)

/-! ## Lemmas: the debounce burst -/

theorem debounceFires_burst :
    ∀ (rest : List (ℚ × Settings)) (c : ℚ × Settings),
      List.Chain' (fun x y => x.1 < y.1 ∧ y.1 - x.1 < 1000) (c :: rest) →
      debounceFires 1000 ((c :: rest).map Prod.fst) =
        [((c :: rest).getLast (List.cons_ne_nil c rest)).1 + 1000] := by
  intro rest
  induction rest with
  | nil => intro c _; rfl
  | cons c2 rest ih =>
    intro c hchain
    rcases List.chain'_cons.1 hchain with ⟨⟨_, hgap⟩, htail⟩
    have hmap : (c :: c2 :: rest).map Prod.fst = c.1 :: c2.1 :: rest.map Prod.fst := rfl
    have hstep : debounceFires 1000 (c.1 :: c2.1 :: rest.map Prod.fst) =
        if c2.1 - c.1 < 1000 then debounceFires 1000 (c2.1 :: rest.map Prod.fst)
        else (c.1 + 1000) :: debounceFires 1000 (c2.1 :: rest.map Prod.fst) := rfl
    rw [hmap, hstep, if_pos hgap]
    have := ih c2 htail
    rw [show (c2 :: rest).map Prod.fst = c2.1 :: rest.map Prod.fst from rfl] at this
    rw [this, List.getLast_cons (List.cons_ne_nil c2 rest)]

theorem snapshotAt_getLast :
    ∀ (l : List (ℚ × Settings)) (hne : l ≠ []) (tau : ℚ) (d : Settings),
      (∀ x ∈ l, x.1 ≤ tau) → snapshotAt l tau d = (l.getLast hne).2 := by
  intro l
  induction l with
  | nil => intro hne; exact absurd rfl hne
  | cons c rest ih =>
    intro _ tau d hall
    have hstep : snapshotAt (c :: rest) tau d =
        snapshotAt rest tau (if c.1 ≤ tau then c.2 else d) := rfl
    rw [hstep, if_pos (hall c (List.mem_cons_self c rest))]
    match rest with
    | [] => rfl
    | c2 :: rest2 =>
      rw [ih (List.cons_ne_nil c2 rest2) tau c.2
          (fun x hx => hall x (List.mem_cons_of_mem c hx)),
        List.getLast_cons (List.cons_ne_nil c2 rest2)]

theorem time_le_getLast :
    ∀ (rest : List (ℚ × Settings)) (c : ℚ × Settings),
      List.Chain' (fun x y : ℚ × Settings => x.1 < y.1) (c :: rest) →
      ∀ x ∈ c :: rest, x.1 ≤ ((c :: rest).getLast (List.cons_ne_nil c rest)).1 := by
  intro rest
  induction rest with
  | nil =>
    intro c _ x hx
    rcases List.mem_singleton.1 hx with rfl
    rfl
  | cons c2 rest ih =>
    intro c hchain x hx
    rcases List.chain'_cons.1 hchain with ⟨hlt, htail⟩
    rw [List.getLast_cons (List.cons_ne_nil c2 rest)]
    rcases List.mem_cons.1 hx with rfl | hx2
    · have := ih c2 htail c2 (List.mem_cons_self c2 rest)
      linarith
    · exact ih c2 htail x hx2

/-! ## The claims -/

/-- C1, counterexample: the round-trip is not the identity on every
Settings value.  A value whose name is the empty string is saved as an
empty `name` parameter, which `loadStringParam` treats as absent, so the
reload replaces it with the default "Tan Ah Kow". -/
theorem c1_counterexample :
    loadSettings (saveSettings sampleEmptyName emptyParams) =
      .ok { sampleEmptyName with name := "Tan Ah Kow" } ∧
    sampleEmptyName.name ≠ "Tan Ah Kow" := by
  have h := loadSettings_saveSettings sampleEmptyName emptyParams
    (a := 1 / 2) (b := 1 / 2) rfl ⟨5, 1, by norm_num⟩ ⟨5, 1, by norm_num⟩
  refine ⟨?_, by decide⟩
  rw [h]
  rfl

/-- C1 (amended): persist-then-reload returns an equal Settings value for
every field, provided the name, font family, font color and font size are
nonempty strings (empty ones are replaced by their startup defaults, which
only coincide for the fields whose default is itself empty) and the
coordinates are a two-element array of finitely-representable numbers. -/
theorem c1_round_trip (s : Settings) (p : Params) (a b : ℚ)
    (hc : s.coordinates = Json.arr [Json.num a, Json.num b])
    (ha : DecimalRep a) (hb : DecimalRep b)
    (hn : s.name ≠ "") (hff : s.fontFamily ≠ "") (hfc : s.fontColor ≠ "")
    (hfs : s.fontSize ≠ "") :
    loadSettings (saveSettings s p) = .ok s := by
  rw [loadSettings_saveSettings s p hc ha hb, if_neg hn, if_neg hff, if_neg hfc,
    if_neg hfs]

/-- C1 witness: a concrete Settings value that survives the round-trip. -/
theorem c1_round_trip_witness :
    loadSettings (saveSettings sampleGood emptyParams) = .ok sampleGood :=
  c1_round_trip sampleGood emptyParams (1 / 2) (1 / 2) rfl
    ⟨5, 1, by norm_num⟩ ⟨5, 1, by norm_num⟩
    (by decide) (by decide) (by decide) (by decide)

/-- C2, counterexample: loading does fail.  A `coordinates` parameter that
is not valid JSON makes the unguarded `JSON.parse` in `loadObjectParam`
throw, so the startup load aborts instead of recovering silently. -/
theorem c2_counterexample :
    (loadSettings (setParam emptyParams "coordinates" "abc")).toOption = none := rfl

/-- C2 (amended): absent parameters are recovered via fallback defaults and
malformed numeric settings are recovered at render time, but a coordinates
parameter holding invalid JSON (such as "abc") raises a parse exception
that loading does not catch. -/
theorem c2_load_failure :
    (∀ p : Params, p "coordinates" = none → ∃ s, loadSettings p = .ok s) ∧
    (∀ p : Params, p "coordinates" = some "abc" →
      (loadSettings p).toOption = none) ∧
    (∀ h : ℚ, effectiveSize "abc" h = 14 / 600 * h) := by
  refine ⟨?_, ?_, ?_⟩
  · intro p hp
    refine ⟨buildSettings p none, ?_⟩
    rw [loadSettings, loadObjectParam, hp]
    rfl
  · intro p hp
    rw [loadSettings, loadObjectParam, hp]
    rfl
  · intro h
    rw [effectiveSize, show parseFloatModel "abc" = none from rfl]
    rfl

/-- C2 witness: the parts of the amended claim at concrete inputs. -/
theorem c2_load_failure_witness :
    (∃ s, loadSettings emptyParams = .ok s) ∧
    (loadSettings (setParam emptyParams "coordinates" "abc")).toOption = none ∧
    effectiveSize "abc" 600 = 14 := by
  refine ⟨c2_load_failure.1 emptyParams rfl,
    c2_load_failure.2.1 (setParam emptyParams "coordinates" "abc")
      (setParam_same emptyParams "coordinates" "abc"), ?_⟩
  rw [c2_load_failure.2.2 600]
  norm_num

/-- C5: for every image size and relative position in the unit square, the
renderer's absolute text anchor is exactly the coordinatewise product. -/
theorem c5_anchor (w h fx fy : ℚ) (hx0 : 0 ≤ fx) (hx1 : fx ≤ 1)
    (hy0 : 0 ≤ fy) (hy1 : fy ≤ 1) :
    textAnchor w h fx fy = (fx * w, fy * h) := by
  rw [textAnchor, mul_comm w fx, mul_comm h fy]

/-- C5 witness: the spec's own example, a 1000 by 800 image with relative
position one half and one tenth. -/
theorem c5_anchor_witness : textAnchor 1000 800 (1 / 2) (1 / 10) = (500, 80) := by
  rw [c5_anchor 1000 800 (1 / 2) (1 / 10) (by norm_num) (by norm_num) (by norm_num)
    (by norm_num)]
  norm_num [Prod.ext_iff]

/-- C6, counterexample: the effective size is not "(numeric value, or 14
when unparsable) / 600 * h".  The string "0" parses to the number 0, but
`parseFloat(...) || 14` treats 0 as falsy, so the code uses 14 where the
claim demands 0. -/
theorem c6_counterexample :
    effectiveSize "0" 600 = 14 ∧ specEffectiveSize "0" 600 = 0 ∧
      effectiveSize "0" 600 ≠ specEffectiveSize "0" 600 := by
  have h0 : parseFloatModel "0" =
      some ((((0 : ℕ) : ℚ) + ((0 : ℕ) : ℚ) / 10 ^ (0 : ℕ)) * (10 : ℚ) ^ (0 : ℤ)) := rfl
  have e1 : effectiveSize "0" 600 = 14 := by
    rw [effectiveSize, h0, sizeOrDefault, if_pos (by norm_num)]
    norm_num
  have e2 : specEffectiveSize "0" 600 = 0 := by
    rw [specEffectiveSize, h0, Option.getD_some]
    norm_num
  exact ⟨e1, e2, by rw [e1, e2]; norm_num⟩

/-- C6 (amended): the effective size is
`(parseFloat value if it is parsable and nonzero, else 14) / 600 * h`, and
it is linear in the image height: doubling the height doubles the size. -/
theorem c6_size :
    (∀ (fs : String) (h : ℚ), effectiveSize fs (2 * h) = 2 * effectiveSize fs h) ∧
    (∀ (fs : String) (h : ℚ), parseFloatModel fs = none →
      effectiveSize fs h = 14 / 600 * h) ∧
    (∀ (fs : String) (h v : ℚ), parseFloatModel fs = some v → v ≠ 0 →
      effectiveSize fs h = v / 600 * h) ∧
    (∀ (fs : String) (h : ℚ), parseFloatModel fs = some 0 →
      effectiveSize fs h = 14 / 600 * h) := by
  refine ⟨?_, ?_, ?_, ?_⟩
  · intro fs h
    rw [effectiveSize, effectiveSize]
    ring
  · intro fs h hn
    rw [effectiveSize, hn, sizeOrDefault]
  · intro fs h v hv hv0
    rw [effectiveSize, hv, sizeOrDefault, if_neg hv0]
  · intro fs h hv
    rw [effectiveSize, hv, sizeOrDefault, if_pos rfl]

/-- C6 witness: the spec's example, fontSize "30" on an 800px-tall image
gives an effective size of 40. -/
theorem c6_size_witness : effectiveSize "30" 800 = 40 := by
  have h30 : parseFloatModel "30" =
      some ((((30 : ℕ) : ℚ) + ((0 : ℕ) : ℚ) / 10 ^ (0 : ℕ)) * (10 : ℚ) ^ (0 : ℤ)) := rfl
  rw [c6_size.2.2.1 "30" 800 _ h30 (by norm_num)]
  norm_num

/-- C3, counterexample: the handler does not extract the first `href`
attribute value and does not report the error exactly when no `href` value
exists.  On the standard Google Fonts preconnect line the markup's first
(and only) `href` value is present, yet the pattern requires the literal
`<link href="`, matches nothing, and the error is reported. -/
theorem c3_counterexample :
    specFirstHref "<link rel=\"preconnect\" href=\"https://fonts.googleapis.com\">" =
      some "https://fonts.googleapis.com" ∧
    extractUrl "<link rel=\"preconnect\" href=\"https://fonts.googleapis.com\">" =
      none ∧
    (handleFontLoadingCode []
        "<link rel=\"preconnect\" href=\"https://fonts.googleapis.com\">"
        ⟨[], [], none, []⟩).fontError = some fontCodeErrMsg :=
  ⟨rfl, rfl, rfl⟩

/-- C3 (amended): the handler matches `/<link href="(.*)"/` — the literal
`<link href="` followed by a greedy same-line capture up to the last
quote — and reports the "could not find stylesheet URL" error exactly when
that pattern yields no URL or an empty one; no other input changes the
error field. -/
theorem c3_error_iff :
    (∀ (df : List String) (code : String) (s : FontState),
      (handleFontLoadingCode df code s).fontError =
        if (extractUrl code).getD "" = "" then some fontCodeErrMsg
        else s.fontError) ∧
    extractUrl "<link href=\"a\" rel=\"b\">" = some "a\" rel=\"b" := by
  refine ⟨?_, rfl⟩
  intro df code s
  rw [handleFontLoadingCode]
  match hu : extractUrl code with
  | none => rfl
  | some url =>
    rw [handleFontLoadingCodeWith]
    by_cases hue : url = ""
    · rw [if_pos hue, hue]
      rfl
    · have hg : ¬((some url).getD "" = "") := by simpa using hue
      rw [if_neg hue, if_neg hg]
      by_cases hmem : url ∈ s.loadedFonts
      · rw [if_pos hmem]
      · rw [if_neg hmem]

/-- C7: requesting a stylesheet URL that this session has already requested
is a no-op on the whole handler state, and the handler preserves the
invariant that every injected link is cached and injected only once. -/
theorem c7_idempotent :
    (∀ (df : List String) (code : String) (s : FontState) (url : String),
      extractUrl code = some url → url ≠ "" → url ∈ s.loadedFonts →
      handleFontLoadingCode df code s = s) ∧
    (∀ (df : List String) (code : String) (s : FontState),
      FontInv s → FontInv (handleFontLoadingCode df code s)) := by
  constructor
  · intro df code s url hu hne hmem
    rw [handleFontLoadingCode, hu, handleFontLoadingCodeWith, if_neg hne, if_pos hmem]
  · intro df code s hinv
    rw [handleFontLoadingCode]
    match hu : extractUrl code with
    | none => exact hinv
    | some url =>
      rw [handleFontLoadingCodeWith]
      by_cases hue : url = ""
      · rw [if_pos hue]
        exact hinv
      · rw [if_neg hue]
        by_cases hmem : url ∈ s.loadedFonts
        · rw [if_pos hmem]
          exact hinv
        · rw [if_neg hmem]
          refine ⟨?_, ?_⟩
          · rw [List.nodup_append]
            refine ⟨hinv.1, List.nodup_singleton url, ?_⟩
            intro x hx hx1
            rw [List.mem_singleton.1 hx1] at hx
            exact hmem (hinv.2 url hx)
          · intro u hu2
            rcases List.mem_append.1 hu2 with hin | hsing
            · exact List.mem_cons_of_mem url (hinv.2 u hin)
            · rw [List.mem_singleton.1 hsing]
              exact List.mem_cons_self url s.loadedFonts

/-- C7 witness: a repeated request for an already-cached URL leaves a
concrete state untouched and keeps its invariant. -/
theorem c7_idempotent_witness :
    handleFontLoadingCode [] "<link href=\"https://u\"" sampleFontState =
      sampleFontState ∧
    FontInv (handleFontLoadingCode [] "<link href=\"https://u\"" sampleFontState) := by
  have h1 := c7_idempotent.1 [] "<link href=\"https://u\"" sampleFontState "https://u"
    rfl (by decide) (by simp [sampleFontState])
  refine ⟨h1, c7_idempotent.2 [] "<link href=\"https://u\"" sampleFontState ?_⟩
  exact ⟨by simp [sampleFontState], by simp [sampleFontState]⟩

/-- C8, counterexample: the unit-square invariant does not hold in every
reachable state.  Startup loading accepts any JSON numbers: the address
`?coordinates=[2,3]` seeds coordinates (2, 3), outside the unit square. -/
theorem c8_counterexample :
    loadSettings (setParam emptyParams "coordinates" "[2,3]") =
      .ok { name := "Tan Ah Kow", fontLoadingCode := "", fontFamily := "sans-serif",
            isItalic := "", isBold := "", fontColor := "#000000", fontSize := "14",
            coordinates := Json.arr [Json.num 2, Json.num 3] } ∧
    ¬inUnitSquare (Json.arr [Json.num 2, Json.num 3]) := by
  constructor
  · have hs : jsonStringify (Json.arr [Json.num 2, Json.num 3]) = "[2,3]" := rfl
    have hp := jsonParse_stringify_pair (a := 2) (b := 3)
      ⟨2, 0, by norm_num⟩ ⟨3, 0, by norm_num⟩
    rw [hs] at hp
    rw [loadSettings, loadObjectParam, setParam_same, loadObjectParamVal,
      if_neg (by decide), hp]
    rfl
  · intro hsq
    rcases hsq with ⟨_, h21, _⟩
    norm_num at h21

/-- C8 (amended): the click-to-reposition update does keep both components
in the unit interval whenever the click offsets lie inside the image's
client box, but startup loading puts whatever numbers the address carries
into the coordinates, so the invariant does not extend to loaded states. -/
theorem c8_click_in_unit (ox oy w h : ℚ) (hx0 : 0 ≤ ox) (hx1 : ox ≤ w)
    (hy0 : 0 ≤ oy) (hy1 : oy ≤ h) (hw : 0 < w) (hh : 0 < h) :
    0 ≤ (handleUpdatePosition ox oy w h).1 ∧ (handleUpdatePosition ox oy w h).1 ≤ 1 ∧
    0 ≤ (handleUpdatePosition ox oy w h).2 ∧ (handleUpdatePosition ox oy w h).2 ≤ 1 := by
  rw [handleUpdatePosition]
  refine ⟨div_nonneg hx0 hw.le, (div_le_one hw).2 hx1,
    div_nonneg hy0 hh.le, (div_le_one hh).2 hy1⟩

/-- C8 witness: a click at the centre of a 2 by 2 box. -/
theorem c8_click_in_unit_witness :
    0 ≤ (handleUpdatePosition 1 1 2 2).1 ∧ (handleUpdatePosition 1 1 2 2).1 ≤ 1 ∧
    0 ≤ (handleUpdatePosition 1 1 2 2).2 ∧ (handleUpdatePosition 1 1 2 2).2 ≤ 1 :=
  c8_click_in_unit 1 1 2 2 (by norm_num) (by norm_num) (by norm_num) (by norm_num)
    (by norm_num) (by norm_num)

/-- C10: once the stylesheet-URL error has been recorded, no later call to
the handler clears it — even a call whose markup yields a valid URL leaves
the stale message in place, because the success path never writes the
error field. -/
theorem c10_stale_error (df : List String) (code : String) (s : FontState)
    (h : s.fontError = some fontCodeErrMsg) :
    (handleFontLoadingCode df code s).fontError = some fontCodeErrMsg := by
  rw [handleFontLoadingCode]
  match hu : extractUrl code with
  | none => rfl
  | some url =>
    rw [handleFontLoadingCodeWith]
    by_cases hue : url = ""
    · rw [if_pos hue]
    · rw [if_neg hue]
      by_cases hmem : url ∈ s.loadedFonts
      · rw [if_pos hmem]
        exact h
      · rw [if_neg hmem]
        exact h

/-- C10 witness: a call with valid markup on a state carrying the error
leaves the error in place. -/
theorem c10_stale_error_witness :
    (handleFontLoadingCode [] "<link href=\"https://u\"" sampleErrState).fontError =
      some fontCodeErrMsg :=
  c10_stale_error [] "<link href=\"https://u\"" sampleErrState rfl

/-- C4: for every eventually-constant font-set size sequence the polling
loop terminates, and it stops exactly 5 polls after the last poll whose
observation differed from the previous one: the loop runs polls `0` to
`t + 5`, the observation changed at poll `t`, and polls `t + 1` to `t + 5`
saw no change. -/
theorem c4_poll_terminates (sizes : ℕ → ℕ) (N : ℕ)
    (hconst : ∀ m, N ≤ m → sizes m = sizes N) :
    ∃ t, stopsAfter sizes (t + 5) ∧
      (sizes t : ℤ) ≠ (pollState sizes t).1 ∧
      ∀ m, t < m → m ≤ t + 5 → (sizes m : ℤ) = (pollState sizes m).1 := by
  have hzero := poll_exists_zero sizes N hconst
  have hspec : (pollState sizes (Nat.find hzero + 1)).2 = 0 := Nat.find_spec hzero
  have hmin : ∀ j, j < Nat.find hzero → (pollState sizes (j + 1)).2 ≠ 0 :=
    fun j hj => Nat.find_min hzero hj
  have hstart : (pollState sizes 0).2 = 5 := by norm_num [pollState]
  have hposUpTo : ∀ m, m ≤ Nat.find hzero → 0 < (pollState sizes m).2 := by
    intro m
    induction m with
    | zero => intro _; omega
    | succ j ih =>
      intro hle
      have hjne := hmin j (by omega)
      have hjpos := ih (by omega)
      rcases pollState_snd_succ sizes j with ⟨h5, _⟩ | ⟨hdec, _⟩ <;> omega
  have hstops : stopsAfter sizes (Nat.find hzero) := ⟨hspec, hposUpTo⟩
  have b0 := poll_back_step sizes (Nat.find hzero) 0 hspec (by norm_num)
  have hne0 : Nat.find hzero ≠ 0 := by
    intro h0
    have := b0.2
    rw [h0] at this
    omega
  obtain ⟨m1, hm1⟩ := Nat.exists_eq_succ_of_ne_zero hne0
  have b1 := poll_back_step sizes m1 1
    (by have := b0.2; rw [hm1] at this; exact this) (by norm_num)
  have hne1 : m1 ≠ 0 := by
    intro h0
    have := b1.2
    rw [h0] at this
    omega
  obtain ⟨m2, hm2⟩ := Nat.exists_eq_succ_of_ne_zero hne1
  have b2 := poll_back_step sizes m2 2
    (by have := b1.2; rw [hm2] at this; exact this) (by norm_num)
  have hne2 : m2 ≠ 0 := by
    intro h0
    have := b2.2
    rw [h0] at this
    omega
  obtain ⟨m3, hm3⟩ := Nat.exists_eq_succ_of_ne_zero hne2
  have b3 := poll_back_step sizes m3 3
    (by have := b2.2; rw [hm3] at this; exact this) (by norm_num)
  have hne3 : m3 ≠ 0 := by
    intro h0
    have := b3.2
    rw [h0] at this
    omega
  obtain ⟨m4, hm4⟩ := Nat.exists_eq_succ_of_ne_zero hne3
  have b4 := poll_back_step sizes m4 4
    (by have := b3.2; rw [hm4] at this; exact this) (by norm_num)
  have hne4 : m4 ≠ 0 := by
    intro h0
    have hch := b4.1
    rw [h0] at hch
    have hfst : (pollState sizes 0).1 = -1 := by norm_num [pollState]
    have hcast : (0 : ℤ) ≤ (sizes 0 : ℤ) := Int.natCast_nonneg _
    omega
  obtain ⟨m5, hm5⟩ := Nat.exists_eq_succ_of_ne_zero hne4
  have hb5 : (pollState sizes (m5 + 1)).2 = 5 := by
    have := b4.2
    rw [hm5] at this
    exact this
  have hch5 : (sizes m5 : ℤ) ≠ (pollState sizes m5).1 := by
    rcases pollState_snd_succ sizes m5 with ⟨_, hch⟩ | ⟨hdec, _⟩
    · exact hch
    · have := pollState_snd_le sizes m5
      omega
  refine ⟨m5, ?_, hch5, ?_⟩
  · have heq : m5 + 5 = Nat.find hzero := by omega
    rw [heq]
    exact hstops
  · intro m h1 h2
    have hcases : m = m5 + 1 ∨ m = m5 + 2 ∨ m = m5 + 3 ∨ m = m5 + 4 ∨ m = m5 + 5 := by
      omega
    have e4 : m4 = m5 + 1 := by omega
    have e3 : m3 = m5 + 2 := by omega
    have e2 : m2 = m5 + 3 := by omega
    have e1 : m1 = m5 + 4 := by omega
    have e0 : Nat.find hzero = m5 + 5 := by omega
    rcases hcases with rfl | rfl | rfl | rfl | rfl
    · exact e4 ▸ b4.1
    · exact e3 ▸ b3.1
    · exact e2 ▸ b2.1
    · exact e1 ▸ b1.1
    · exact e0 ▸ b0.1

/-- C4 witness: the constant sequence 3 stabilizes immediately; its only
observed change is the very first poll (3 against the sentinel -1). -/
theorem c4_poll_terminates_witness :
    ∃ t, stopsAfter (fun _ => 3) (t + 5) ∧
      ((3 : ℕ) : ℤ) ≠ (pollState (fun _ => 3) t).1 ∧
      ∀ m, t < m → m ≤ t + 5 → ((3 : ℕ) : ℤ) = (pollState (fun _ => 3) m).1 :=
  c4_poll_terminates (fun _ => 3) 0 (fun _ _ => rfl)

/-- C9: a burst of settings changes whose consecutive gaps are all shorter
than the 1000ms quiet period produces exactly one re-render invocation and
exactly one persist invocation, both 1000ms after the last change, and the
snapshot observed at that moment is the last change's snapshot. -/
theorem c9_debounce (c : ℚ × Settings) (rest : List (ℚ × Settings)) (d : Settings)
    (hchain : List.Chain' (fun x y => x.1 < y.1 ∧ y.1 - x.1 < 1000) (c :: rest)) :
    renderFires (c :: rest) =
      [((c :: rest).getLast (List.cons_ne_nil c rest)).1 + 1000] ∧
    persistFires (c :: rest) =
      [((c :: rest).getLast (List.cons_ne_nil c rest)).1 + 1000] ∧
    snapshotAt (c :: rest) (((c :: rest).getLast (List.cons_ne_nil c rest)).1 + 1000) d =
      ((c :: rest).getLast (List.cons_ne_nil c rest)).2 := by
  have hfires := debounceFires_burst rest c hchain
  have htimes : List.Chain' (fun x y : ℚ × Settings => x.1 < y.1) (c :: rest) :=
    List.Chain'.imp (fun a b hab => hab.1) hchain
  have hall : ∀ x ∈ c :: rest,
      x.1 ≤ ((c :: rest).getLast (List.cons_ne_nil c rest)).1 + 1000 := by
    intro x hx
    have := time_le_getLast rest c htimes x hx
    linarith
  exact ⟨by rw [renderFires]; exact hfires, by rw [persistFires]; exact hfires,
    snapshotAt_getLast (c :: rest) (List.cons_ne_nil c rest) _ d hall⟩

/-- C9 witness: two changes 500ms apart coalesce into one render and one
persist at time 1500, both observing the second snapshot. -/
theorem c9_debounce_witness :
    renderFires [(0, sampleA), (500, sampleB)] = [(500 : ℚ) + 1000] ∧
    persistFires [(0, sampleA), (500, sampleB)] = [(500 : ℚ) + 1000] ∧
    snapshotAt [(0, sampleA), (500, sampleB)] ((500 : ℚ) + 1000) sampleA = sampleB :=
  c9_debounce (0, sampleA) [(500, sampleB)] sampleA
    (List.chain'_cons.2 ⟨⟨by norm_num, by norm_num⟩, List.chain'_singleton _⟩)

end WeddingInvite
